import Mathlib

/-!
Shallow embedding of the audio-file decoding pipeline of
`custom_speech_recognition/AudioFile.py`.

Buffers of raw bytes are modelled as `List Nat` (each element a byte value).
The `audioop` primitives used by the code (`byteswap`, `tomono`) are embedded
with their CPython semantics on a little-endian host, which is what the code
assumes (see the comment next to `little_endian = True` in the source).
-/

deriving instance DecidableEq for Except

namespace AudioFileSpec

/-- Fuel-driven worker for `chunksExact`; the fuel only serves structural
termination and any fuel at least the list length gives the same result. -/
def chunksFuel (w : Nat) : Nat → List Nat → List (List Nat)
  | 0, _ => []
  | _ + 1, [] => []
  | fuel + 1, x :: xs => ((x :: xs).take w) :: chunksFuel w fuel ((x :: xs).drop w)

/-- Split a list into consecutive groups of `w` elements, the way the Python
code iterates `range(0, len(buffer), w)` and slices `buffer[i : i + w]`.
A trailing group shorter than `w` is kept as-is. -/
def chunksExact (w : Nat) (l : List Nat) : List (List Nat) :=
  if w = 0 then [] else chunksFuel w l.length l

/-- Value of a little-endian unsigned byte string: the first byte is the least
significant one. -/
def leDecodeU : List Nat → Nat
  | [] => 0
  | b :: bs => b + 256 * leDecodeU bs

/-- Two's-complement reading of a `w`-byte unsigned value, as CPython's
`audioop` `GETRAWSAMPLE` does for signed samples. -/
def toSigned (w : Nat) (u : Nat) : Int :=
  if u < 2 ^ (8 * w - 1) then (u : Int) else (u : Int) - 2 ^ (8 * w)

/-- The `w` little-endian bytes of a natural number (low byte first). -/
def natLE : Nat → Nat → List Nat
  | 0, _ => []
  | w + 1, u => u % 256 :: natLE w (u / 256)

/-- Little-endian two's-complement encoding of a signed sample over `w`
bytes, as `audioop`'s `SETRAWSAMPLE` stores results on a little-endian host. -/
def leEncode (w : Nat) (v : Int) : List Nat :=
  natLE w (v % (2 ^ (8 * w))).toNat

/-- `audioop`'s `fbound`: clamp a sample value to the signed range of width
`w` (`[-2^(8w-1), 2^(8w-1) - 1]`).  The source calls `tomono` with integer
factors, so the `floor` inside `fbound` is the identity and clamping is all
that remains. -/
def clampSample (w : Nat) (v : Int) : Int :=
  let maxval : Int := 2 ^ (8 * w - 1) - 1
  let minval : Int := -(2 ^ (8 * w - 1))
  if v > maxval then maxval else if v < minval then minval else v

/-- `audioop.byteswap(buffer, w)`: reverse the byte order inside every
`w`-byte sample.  The manual fallback in `AudioFileStream.read`
(`buffer[w - 1 :: -1]` joined with each `buffer[i + w : i : -1]`) computes the
same per-sample reversal. -/
def byteswap (w : Nat) (buf : List Nat) : List Nat :=
  ((chunksExact w buf).map List.reverse).flatten

/-- The 24-bit workaround in `AudioFileStream.read`: the concatenation of
`b"\x00" + buffer[i : i + sample_width]` over `i in range(0, len(buffer), sample_width)`
— a zero byte is prepended, in byte order, to every sample group. -/
def widen_24_to_32 (w : Nat) (buf : List Nat) : List Nat :=
  ((chunksExact w buf).map (fun s => 0 :: s)).flatten

/-- Spec reading of the 24-bit widening for comparison: the zero byte inserted
as the new MOST significant byte, i.e. appended in little-endian byte order. -/
def widen_24_to_32_msb (w : Nat) (buf : List Nat) : List Nat :=
  ((chunksExact w buf).map (fun s => s ++ [0])).flatten

/-- `audioop.tomono(buffer, w, 1, 1)` as called by `AudioFileStream.read`:
for every consecutive pair of `w`-byte signed little-endian samples, store
`fbound(l * 1 + r * 1)` — the sum of the two channels clamped to the signed
range of width `w` — as one `w`-byte sample. -/
def tomono (w : Nat) (buf : List Nat) : List Nat :=
  ((chunksExact (2 * w) buf).map (fun c =>
      leEncode w (clampSample w
        (toSigned w (leDecodeU (c.take w)) + toSigned w (leDecodeU (c.drop w)))))).flatten

/-- An opened decoded reader (`wave.Wave_read` / `aifc.Aifc_read`): header
metadata, the raw interleaved frame bytes, and the read cursor in frames. -/
structure Reader where
  nchannels : Nat
  sampwidth : Nat
  framerate : Nat
  nframes : Nat
  frames : List Nat
  pos : Nat
deriving DecidableEq, Repr

/-- `reader.readframes(n)`: return at most `n` frames starting at the cursor
(all remaining frames when `n` is negative, as `chunk.read` does) and advance
the cursor by the number of frames actually returned. -/
def Reader.readframes (r : Reader) (n : Int) : List Nat × Reader :=
  let remaining := r.nframes - r.pos
  let k := if n < 0 then remaining else min n.toNat remaining
  let framesize := r.nchannels * r.sampwidth
  ((r.frames.drop (r.pos * framesize)).take (k * framesize),
   { r with pos := r.pos + k })

/-- `AudioFile.AudioFileStream`. -/
structure AudioFileStream where
  audio_reader : Reader
  little_endian : Bool
  samples_24_bit_pretending_to_be_32_bit : Bool
deriving DecidableEq, Repr

/-- `AudioFileStream.read(size=-1)`: read `size` frames (the reader's total
frame count when `size == -1`), then byte-swap big-endian data, widen 3-byte
samples to 4 bytes when the 24-bit workaround flag is set (the sample width
becoming 4 from then on), and downmix to mono with `audioop.tomono` when the
reader is not single-channel.  Returns the transformed buffer together with
the advanced stream. -/
def AudioFileStream.read (s : AudioFileStream) (size : Int) : List Nat × AudioFileStream :=
  let n : Int := if size = -1 then (s.audio_reader.nframes : Int) else size
  let res := s.audio_reader.readframes n
  let buffer := res.1
  let sample_width := s.audio_reader.sampwidth
  let buffer := if s.little_endian = false then byteswap sample_width buffer else buffer
  let bw : List Nat × Nat :=
    if s.samples_24_bit_pretending_to_be_32_bit then
      (widen_24_to_32 sample_width buffer, 4)
    else (buffer, sample_width)
  let buffer := if res.2.nchannels ≠ 1 then tomono bw.2 bw.1 else bw.1
  (buffer, { s with audio_reader := res.2 })

/-- The input handed to `AudioFile`: either a path or a file-like object
(`is_file_like` models `hasattr(·, "read")`), abstracted together with what
each decoding attempt of `__enter__` would yield: `wav` is the result of
`wave.open` (`none` when it raises `wave.Error`/`EOFError`), `aiff` the
result of `aifc.open` on the input, and `flac_decoded_aiff` the result of
`aifc.open` on the output of the external FLAC-to-AIFF decode of the raw
input bytes. -/
structure ProbeInput where
  is_file_like : Bool
  wav : Option Reader
  aiff : Option Reader
  flac_decoded_aiff : Option Reader
deriving DecidableEq, Repr

/-- The try/except cascade of `AudioFile.__enter__`: WAV first
(little-endian), then AIFF, then external FLAC decode to AIFF (both
big-endian); the boolean returned with the reader is `little_endian`. -/
def formatProbe (f : ProbeInput) : Option (Reader × Bool) :=
  match f.wav with
  | some r => some (r, true)
  | none =>
    match f.aiff with
    | some r => some (r, false)
    | none =>
      match f.flac_decoded_aiff with
      | some r => some (r, false)
      | none => none

/-- Errors of `AudioFile.__enter__`, with the spec's names: `StateError` is
the `assert self.stream is None` failure, `UnsupportedFormatError` the
`ValueError` raised when no decoder accepts the input, and
`UnsupportedChannelLayoutError` the `assert 1 <= nchannels <= 2` failure. -/
inductive EnterError where
  | StateError
  | UnsupportedFormatError
  | UnsupportedChannelLayoutError
deriving DecidableEq, Repr

/-- The attribute state of an `AudioFile` instance. -/
structure AudioFile where
  filename_or_fileobject : ProbeInput
  stream : Option AudioFileStream
  DURATION : Option Rat
  audio_reader : Option Reader
  little_endian : Bool
  SAMPLE_RATE : Option Nat
  CHUNK : Option Nat
  FRAME_COUNT : Option Nat
  SAMPLE_WIDTH : Option Nat
deriving DecidableEq, Repr

/-- `AudioFile.__init__`. -/
def AudioFile.init (f : ProbeInput) : AudioFile :=
  { filename_or_fileobject := f
    stream := none
    DURATION := none
    audio_reader := none
    little_endian := false
    SAMPLE_RATE := none
    CHUNK := none
    FRAME_COUNT := none
    SAMPLE_WIDTH := none }

/-- `AudioFile.__enter__`.  `width3_unsupported` models whether the
`audioop.bias` probe for sample width 3 raises (true only on Python 3.3 and
older).  An exception leaves every attribute assigned before the raise in
place, so the error case carries the post-failure attribute state. -/
def AudioFile.enter (a : AudioFile) (width3_unsupported : Bool) :
    Except (EnterError × AudioFile) AudioFile :=
  match a.stream with
  | some _ => .error (.StateError, a)
  | none =>
    match formatProbe a.filename_or_fileobject with
    | none => .error (.UnsupportedFormatError, a)
    | some (r, le) =>
      let a1 := { a with audio_reader := some r, little_endian := le }
      if 1 ≤ r.nchannels ∧ r.nchannels ≤ 2 then
        let samples_24 := r.sampwidth = 3 && width3_unsupported
        .ok { a1 with
          SAMPLE_WIDTH := some (if samples_24 then 4 else r.sampwidth)
          SAMPLE_RATE := some r.framerate
          CHUNK := some 4096
          FRAME_COUNT := some r.nframes
          DURATION := some ((r.nframes : Rat) / (r.framerate : Rat))
          stream := some ⟨r, le, samples_24⟩ }
      else .error (.UnsupportedChannelLayoutError, a1)

/-- `AudioFile.__exit__`: close the reader only when the source was given a
path (no `read` attribute), then set `stream` and `DURATION` back to `None`.
The boolean records whether the underlying reader was closed. -/
def AudioFile.exit (a : AudioFile) : AudioFile × Bool :=
  ({ a with stream := none, DURATION := none }, !a.filename_or_fileobject.is_file_like)

/-- A signed sample value representable at width `w`. -/
def sampleInRange (w : Nat) (v : Int) : Prop :=
  -(2 ^ (8 * w - 1)) ≤ v ∧ v < 2 ^ (8 * w - 1)

instance (w : Nat) (v : Int) : Decidable (sampleInRange w v) := by
  unfold sampleInRange
  infer_instance

/-- Interleave a list of (left, right) sample pairs into a raw stereo buffer
of little-endian `w`-byte samples. -/
def encodePairs (w : Nat) (pairs : List (Int × Int)) : List Nat :=
  (pairs.map (fun p => leEncode w p.1 ++ leEncode w p.2)).flatten

theorem chunksFuel_congr (w : Nat) (hw : w ≠ 0) (f1 : Nat) :
    ∀ (f2 : Nat) (l : List Nat), l.length ≤ f1 → l.length ≤ f2 →
      chunksFuel w f1 l = chunksFuel w f2 l := by
  induction f1 with
  | zero =>
    intro f2 l h1 _
    have : l = [] := List.length_eq_zero.mp (Nat.le_zero.mp h1)
    subst this
    cases f2 <;> simp [chunksFuel]
  | succ f1 ih =>
    intro f2 l h1 h2
    cases l with
    | nil => cases f2 <;> simp [chunksFuel]
    | cons x xs =>
      cases f2 with
      | zero => simp at h2
      | succ f2 =>
        rw [chunksFuel, chunksFuel]
        congr 1
        apply ih
        · simp only [List.length_drop, List.length_cons] at h1 ⊢
          omega
        · simp only [List.length_drop, List.length_cons] at h2 ⊢
          omega

theorem chunksExact_nil (w : Nat) : chunksExact w [] = [] := by
  rw [chunksExact]
  split <;> simp [chunksFuel]

theorem chunksExact_of_ne (w : Nat) (hw : w ≠ 0) (l : List Nat) (hl : l ≠ []) :
    chunksExact w l = l.take w :: chunksExact w (l.drop w) := by
  obtain ⟨x, xs, rfl⟩ := List.exists_cons_of_ne_nil hl
  rw [chunksExact, chunksExact, if_neg hw, if_neg hw]
  rw [List.length_cons, chunksFuel]
  congr 1
  apply chunksFuel_congr w hw
  · simp only [List.length_drop, List.length_cons]
    omega
  · exact Nat.le_refl _

theorem flatten_chunksExact (w : Nat) (hw : w ≠ 0) (l : List Nat) :
    (chunksExact w l).flatten = l := by
  by_cases hl : l = []
  · subst hl
    simp [chunksExact_nil]
  · rw [chunksExact_of_ne w hw l hl, List.flatten_cons,
      flatten_chunksExact w hw (l.drop w), List.take_append_drop]
termination_by l.length
decreasing_by
  simp only [List.length_drop]
  exact Nat.sub_lt (List.length_pos.mpr hl) (Nat.pos_of_ne_zero hw)

theorem chunksExact_append (w : Nat) (hw : w ≠ 0) (a l : List Nat)
    (ha : a.length = w) :
    chunksExact w (a ++ l) = a :: chunksExact w l := by
  have hane : a ≠ [] := by
    intro h
    rw [h] at ha
    exact hw ha.symm
  have hne : a ++ l ≠ [] := by
    simp [hane]
  rw [chunksExact_of_ne w hw _ hne, List.take_left' ha, List.drop_left' ha]

theorem chunksExact_flatten (w : Nat) (hw : w ≠ 0) (L : List (List Nat))
    (h : ∀ c ∈ L, c.length = w) :
    chunksExact w L.flatten = L := by
  induction L with
  | nil => simp [chunksExact_nil]
  | cons c L ih =>
    rw [List.flatten_cons, chunksExact_append w hw c L.flatten (h c (by simp))]
    rw [ih (fun c hc => h c (by simp [hc]))]

theorem length_mem_chunksExact (w : Nat) (hw : w ≠ 0) (l : List Nat)
    (hdvd : w ∣ l.length) : ∀ c ∈ chunksExact w l, c.length = w := by
  by_cases hl : l = []
  · subst hl
    simp [chunksExact_nil]
  · rw [chunksExact_of_ne w hw l hl]
    intro c hc
    have hwle : w ≤ l.length := by
      rcases hdvd with ⟨k, hk⟩
      rcases Nat.eq_zero_or_pos k with hk0 | hk0
      · subst hk0
        simp at hk
        exact absurd hk (by simpa using hl)
      · calc w = w * 1 := by ring
          _ ≤ w * k := Nat.mul_le_mul_left w hk0
          _ = l.length := hk.symm
    rcases List.mem_cons.mp hc with h | h
    · subst h
      simp [hwle]
    · have : w ∣ (l.drop w).length := by
        simp only [List.length_drop]
        exact (Nat.dvd_sub' hdvd dvd_rfl)
      exact length_mem_chunksExact w hw (l.drop w) this c h
termination_by l.length
decreasing_by
  simp only [List.length_drop]
  exact Nat.sub_lt (List.length_pos.mpr hl) (Nat.pos_of_ne_zero hw)

theorem natLE_length (w u : Nat) : (natLE w u).length = w := by
  induction w generalizing u with
  | zero => simp [natLE]
  | succ w ih => simp [natLE, ih]

theorem leDecodeU_natLE (w u : Nat) : leDecodeU (natLE w u) = u % 256 ^ w := by
  induction w generalizing u with
  | zero => simp [natLE, leDecodeU, Nat.mod_one]
  | succ w ih =>
    rw [natLE, leDecodeU, ih]
    rw [pow_succ, mul_comm (256 ^ w) 256, Nat.mod_mul]

theorem leEncode_length (w : Nat) (v : Int) : (leEncode w v).length = w := by
  rw [leEncode, natLE_length]

theorem natLE_lt (w u : Nat) : ∀ b ∈ natLE w u, b < 256 := by
  induction w generalizing u with
  | zero => simp [natLE]
  | succ w ih =>
    intro b hb
    rw [natLE] at hb
    rcases List.mem_cons.mp hb with h | h
    · subst h
      exact Nat.mod_lt _ (by norm_num)
    · exact ih (u / 256) b h

theorem leEncode_lt (w : Nat) (v : Int) : ∀ b ∈ leEncode w v, b < 256 :=
  natLE_lt w _

theorem leDecodeU_lt (l : List Nat) (h : ∀ b ∈ l, b < 256) :
    leDecodeU l < 256 ^ l.length := by
  induction l with
  | nil => simp [leDecodeU]
  | cons b bs ih =>
    have hb : b < 256 := h b (by simp)
    have hbs := ih (fun x hx => h x (by simp [hx]))
    rw [leDecodeU, List.length_cons, pow_succ, mul_comm (256 ^ bs.length) 256]
    calc b + 256 * leDecodeU bs < 256 + 256 * leDecodeU bs := by omega
      _ = 256 * (leDecodeU bs + 1) := by ring
      _ ≤ 256 * 256 ^ bs.length := Nat.mul_le_mul_left 256 hbs

theorem two_pow_eq (w : Nat) : (2 : Nat) ^ (8 * w) = 256 ^ w := by
  rw [pow_mul]
  norm_num

/-- Case analysis of `v % 2^(8w)` for an in-range signed value `v`. -/
theorem emod_cases (v M H : Int) (hM : M = 2 * H) (hH : 0 < H)
    (hlo : -H ≤ v) (hhi : v < H) :
    (0 ≤ v ∧ v % M = v) ∨ (v < 0 ∧ v % M = v + M) := by
  rcases le_or_lt 0 v with h0 | h0
  · exact Or.inl ⟨h0, Int.emod_eq_of_lt h0 (by omega)⟩
  · refine Or.inr ⟨h0, ?_⟩
    have h1 : (v + M * 1) % M = v % M := Int.add_mul_emod_self_left v M 1
    rw [mul_one] at h1
    have h2 : (v + M) % M = v + M := Int.emod_eq_of_lt (by omega) (by omega)
    rw [← h1, h2]

/-- Decoding the `w`-byte little-endian two's-complement encoding of an
in-range signed sample gives the sample back. -/
theorem toSigned_leDecodeU_leEncode (w : Nat) (hw : w ≠ 0) (v : Int)
    (h : sampleInRange w v) :
    toSigned w (leDecodeU (leEncode w v)) = v := by
  obtain ⟨hlo, hhi⟩ := h
  have hM : (2 : Int) ^ (8 * w) = 2 * 2 ^ (8 * w - 1) := by
    rw [← pow_succ']
    congr 1
    omega
  have hH : (0 : Int) < 2 ^ (8 * w - 1) := by positivity
  have hmod := emod_cases v (2 ^ (8 * w)) (2 ^ (8 * w - 1)) hM hH hlo hhi
  have hnn : 0 ≤ v % 2 ^ (8 * w) :=
    Int.emod_nonneg v (by positivity)
  have hlt : v % 2 ^ (8 * w) < 2 ^ (8 * w) :=
    Int.emod_lt_of_pos v (by positivity)
  have htoNat : ((v % 2 ^ (8 * w)).toNat : Int) = v % 2 ^ (8 * w) :=
    Int.toNat_of_nonneg hnn
  have hcast : ((2 : Nat) ^ (8 * w) : Int) = (2 : Int) ^ (8 * w) := by
    push_cast
    ring
  have hsmall : (v % 2 ^ (8 * w)).toNat < 2 ^ (8 * w) := by
    omega
  rw [leEncode, leDecodeU_natLE, ← two_pow_eq,
    Nat.mod_eq_of_lt hsmall, toSigned]
  have hHcast : ((2 : Nat) ^ (8 * w - 1) : Int) = (2 : Int) ^ (8 * w - 1) := by
    push_cast
    ring
  rcases hmod with ⟨h0, heq⟩ | ⟨h0, heq⟩
  · have : ((v % 2 ^ (8 * w)).toNat : Int) = v := by rw [htoNat, heq]
    have hcond : (v % 2 ^ (8 * w)).toNat < 2 ^ (8 * w - 1) := by omega
    rw [if_pos hcond, this]
  · have : ((v % 2 ^ (8 * w)).toNat : Int) = v + 2 ^ (8 * w) := by rw [htoNat, heq]
    have hcond : ¬ (v % 2 ^ (8 * w)).toNat < 2 ^ (8 * w - 1) := by omega
    rw [if_neg hcond, this]
    ring

/-- `tomono` on an interleaved stereo buffer of in-range samples produces,
per pair, the clamped sum of the two channel samples at the same width. -/
theorem tomono_encodePairs (w : Nat) (hw : w ≠ 0) (pairs : List (Int × Int))
    (hb : ∀ p ∈ pairs, sampleInRange w p.1 ∧ sampleInRange w p.2) :
    tomono w (encodePairs w pairs)
      = (pairs.map (fun p => leEncode w (clampSample w (p.1 + p.2)))).flatten := by
  rw [tomono, encodePairs]
  rw [chunksExact_flatten (2 * w) (by omega) _ (by
    intro c hc
    obtain ⟨p, hp, rfl⟩ := List.mem_map.mp hc
    simp only [List.length_append, leEncode_length]
    omega)]
  rw [List.map_map]
  congr 1
  apply List.map_congr_left
  intro p hp
  simp only [Function.comp_apply]
  rw [List.take_left' (leEncode_length w p.1), List.drop_left' (leEncode_length w p.1)]
  rw [toSigned_leDecodeU_leEncode w hw p.1 (hb p hp).1,
    toSigned_leDecodeU_leEncode w hw p.2 (hb p hp).2]

/-- `widen_24_to_32` prepends the zero byte to each 3-byte sample group. -/
theorem widen_24_to_32_flatten (samples : List (List Nat))
    (h3 : ∀ s ∈ samples, s.length = 3) :
    widen_24_to_32 3 samples.flatten = (samples.map (fun s => 0 :: s)).flatten := by
  rw [widen_24_to_32, chunksExact_flatten 3 (by norm_num) samples h3]

/-- Prepending a zero byte in little-endian byte order multiplies the signed
sample value by 256 (the zero byte becomes the new LEAST significant byte),
preserving the sign of the sample. -/
theorem toSigned_zero_cons (s : List Nat) (h3 : s.length = 3)
    (hb : ∀ b ∈ s, b < 256) :
    toSigned 4 (leDecodeU (0 :: s)) = 256 * toSigned 3 (leDecodeU s) := by
  have hu : leDecodeU s < 256 ^ 3 := by
    have := leDecodeU_lt s hb
    rwa [h3] at this
  rw [leDecodeU, toSigned, toSigned]
  norm_num
  split_ifs <;> omega

/-- On a mono little-endian stream without the 24-bit workaround, `read`
returns the raw frame bytes delivered by the reader, untouched. -/
theorem read_mono_id (r : Reader) (size : Int) (h1 : r.nchannels = 1) :
    ((AudioFileStream.mk r true false).read size).1
      = (r.readframes (if size = -1 then (r.nframes : Int) else size)).1 := by
  simp [AudioFileStream.read, Reader.readframes, h1]

/-- Claim C1, counterexample: opening a stereo little-endian 16-bit source
whose interleaved channels hold the constant values 100 and 200 and reading
it downmixes every sample to 300 (bytes `[44, 1]`), the sum of the channels,
not to their arithmetic mean 150 (bytes `[150, 0]`) as the claim states. -/
theorem C1_counterexample :
    (match (AudioFile.init ⟨true,
        some ⟨2, 2, 8000, 2, [100, 0, 200, 0, 100, 0, 200, 0], 0⟩,
        none, none⟩).enter false with
      | .ok a =>
        match a.stream with
        | some st => (st.read (-1)).1
        | none => []
      | .error _ => []) = [44, 1, 44, 1]
    ∧ leDecodeU [44, 1] = 300
    ∧ ([44, 1, 44, 1] : List Nat) ≠ [150, 0, 150, 0] := by
  decide

/-- Claim C1 (amended): for every two-channel buffer, the downmix step
converts each pair of interleaved per-channel samples into one mono sample
equal to their SUM clamped to the signed range of the sample width (so two
identical interleaved channels downmix to double each sample, saturating,
and constant channels of value 100 and 200 at 16-bit width yield every
downmixed sample equal to 300); one-channel sources pass through
unchanged. -/
theorem C1_downmix_clamped_sum :
    (∀ (w : Nat) (pairs : List (Int × Int)), w ≠ 0 →
      (∀ p ∈ pairs, sampleInRange w p.1 ∧ sampleInRange w p.2) →
      tomono w (encodePairs w pairs)
        = (pairs.map (fun p => leEncode w (clampSample w (p.1 + p.2)))).flatten)
    ∧ (∀ (r : Reader) (size : Int), r.nchannels = 1 →
      ((AudioFileStream.mk r true false).read size).1
        = (r.readframes (if size = -1 then (r.nframes : Int) else size)).1) :=
  ⟨fun w pairs hw hb => tomono_encodePairs w hw pairs hb,
   fun r size h1 => read_mono_id r size h1⟩

/-- Claim C1, witness: at width 2 the pair (100, 200) downmixes to the bytes
of 300, and a mono stream returns its raw bytes unchanged. -/
theorem C1_downmix_clamped_sum_witness :
    tomono 2 (encodePairs 2 [(100, 200)]) = [44, 1]
    ∧ ((AudioFileStream.mk ⟨1, 2, 8000, 2, [7, 0, 9, 0], 0⟩ true false).read (-1)).1
        = [7, 0, 9, 0] := by
  constructor
  · rw [C1_downmix_clamped_sum.1 2 [(100, 200)] (by norm_num) (by decide)]
    decide
  · rw [C1_downmix_clamped_sum.2 ⟨1, 2, 8000, 2, [7, 0, 9, 0], 0⟩ (-1) rfl]
    decide

/-- Claim C2, counterexample: with the bit-width emulation flag set, reading
the single 24-bit sample `[1, 0, 0]` (value 1) produces `[0, 1, 0, 0]`
(value 256): the zero byte is prepended in byte order and becomes the new
LEAST significant byte of the little-endian sample, whereas inserting it as
the new MOST significant byte would give `[1, 0, 0, 0]` (value 1). -/
theorem C2_counterexample :
    ((AudioFileStream.mk ⟨1, 3, 8000, 1, [1, 0, 0], 0⟩ true true).read (-1)).1
        = [0, 1, 0, 0]
    ∧ widen_24_to_32_msb 3 [1, 0, 0] = [1, 0, 0, 0]
    ∧ ([0, 1, 0, 0] : List Nat) ≠ [1, 0, 0, 0]
    ∧ leDecodeU [0, 1, 0, 0] = 256 * leDecodeU [1, 0, 0] := by
  decide

/-- Claim C2 (amended): when the bit-width emulation flag is set, every read
reinterprets each 3-byte little-endian sample as a 4-byte little-endian
sample by inserting one zero byte as the new LEAST significant byte of that
sample (prepended in byte order, which multiplies the signed sample value by
256 and preserves its sign), and the sample width used for the subsequent
downmix step becomes 4. -/
theorem C2_widen_zero_lsb :
    (∀ samples : List (List Nat), (∀ s ∈ samples, s.length = 3) →
      widen_24_to_32 3 samples.flatten = (samples.map (fun s => 0 :: s)).flatten)
    ∧ (∀ s : List Nat, s.length = 3 → (∀ b ∈ s, b < 256) →
      toSigned 4 (leDecodeU (0 :: s)) = 256 * toSigned 3 (leDecodeU s))
    ∧ (∀ (r : Reader) (size : Int), r.sampwidth = 3 → r.nchannels = 2 →
      ((AudioFileStream.mk r true true).read size).1
        = tomono 4 (widen_24_to_32 3
            (r.readframes (if size = -1 then (r.nframes : Int) else size)).1)) := by
  refine ⟨widen_24_to_32_flatten, toSigned_zero_cons, ?_⟩
  intro r size hsw hch
  simp [AudioFileStream.read, Reader.readframes, hsw, hch]

/-- Claim C2, witness: a widened sample keeps its bytes after the zero, the
value scales by 256, and a stereo width-3 stream with the flag set downmixes
the widened buffer at width 4. -/
theorem C2_widen_zero_lsb_witness :
    widen_24_to_32 3 ([[1, 0, 0]] : List (List Nat)).flatten = [0, 1, 0, 0]
    ∧ toSigned 4 (leDecodeU (0 :: [1, 0, 0])) = 256 * toSigned 3 (leDecodeU [1, 0, 0])
    ∧ ((AudioFileStream.mk ⟨2, 3, 8000, 1, [1, 0, 0, 2, 0, 0], 0⟩ true true).read (-1)).1
        = tomono 4 (widen_24_to_32 3 [1, 0, 0, 2, 0, 0]) := by
  refine ⟨?_, C2_widen_zero_lsb.2.1 [1, 0, 0] rfl (by decide), ?_⟩
  · rw [C2_widen_zero_lsb.1 [[1, 0, 0]] (by decide)]
    decide
  · have h := C2_widen_zero_lsb.2.2 ⟨2, 3, 8000, 1, [1, 0, 0, 2, 0, 0], 0⟩ (-1) rfl rfl
    rw [h]
    decide

/-- Claim C3: format probing tries the decoders in a fixed order with first
success winning — WAV first with `little_endian = true`, then AIFF with
`little_endian = false`, then the externally decoded AIFF, again
`little_endian = false` — and when the externally decoded output also fails
to open, scope entry fails with `UnsupportedFormatError`. -/
theorem C3_probe_order (f : ProbeInput) :
    (∀ r, f.wav = some r → formatProbe f = some (r, true))
    ∧ (f.wav = none → ∀ r, f.aiff = some r → formatProbe f = some (r, false))
    ∧ (f.wav = none → f.aiff = none → ∀ r, f.flac_decoded_aiff = some r →
        formatProbe f = some (r, false))
    ∧ (f.wav = none → f.aiff = none → f.flac_decoded_aiff = none →
        ∀ w3 : Bool, (AudioFile.init f).enter w3
          = .error (.UnsupportedFormatError, AudioFile.init f)) := by
  refine ⟨?_, ?_, ?_, ?_⟩
  · intro r h
    simp [formatProbe, h]
  · intro h0 r h
    simp [formatProbe, h0, h]
  · intro h0 h1 r h
    simp [formatProbe, h0, h1, h]
  · intro h0 h1 h2 w3
    simp [AudioFile.enter, AudioFile.init, formatProbe, h0, h1, h2]

/-- Claim C3, witness: the four cascade outcomes at concrete inputs. -/
theorem C3_probe_order_witness :
    formatProbe ⟨true, some ⟨1, 2, 8000, 0, [], 0⟩, none, none⟩
        = some (⟨1, 2, 8000, 0, [], 0⟩, true)
    ∧ formatProbe ⟨true, none, some ⟨1, 2, 8000, 0, [], 0⟩, none⟩
        = some (⟨1, 2, 8000, 0, [], 0⟩, false)
    ∧ formatProbe ⟨true, none, none, some ⟨1, 2, 8000, 0, [], 0⟩⟩
        = some (⟨1, 2, 8000, 0, [], 0⟩, false)
    ∧ (AudioFile.init ⟨true, none, none, none⟩).enter false
        = .error (.UnsupportedFormatError, AudioFile.init ⟨true, none, none, none⟩) :=
  ⟨(C3_probe_order _).1 _ rfl,
   (C3_probe_order _).2.1 rfl _ rfl,
   (C3_probe_order _).2.2.1 rfl rfl _ rfl,
   (C3_probe_order _).2.2.2 rfl rfl rfl false⟩

/-- Claim C4, counterexample: entering a source whose WAV decoder yields a
3-channel reader fails with `UnsupportedChannelLayoutError`, yet the failed
state retains the decoded reader in `audio_reader` (and the endianness flag
was updated), contradicting "no decoded reader retained by the source". -/
theorem C4_counterexample :
    (AudioFile.init ⟨true, some ⟨3, 2, 8000, 1, [1, 0, 2, 0, 3, 0], 0⟩, none, none⟩).enter
        false
      = .error (.UnsupportedChannelLayoutError,
          { AudioFile.init ⟨true, some ⟨3, 2, 8000, 1, [1, 0, 2, 0, 3, 0], 0⟩, none, none⟩
              with
            audio_reader := some ⟨3, 2, 8000, 1, [1, 0, 2, 0, 3, 0], 0⟩
            little_endian := true })
    ∧ (some ⟨3, 2, 8000, 1, [1, 0, 2, 0, 3, 0], 0⟩ : Option Reader) ≠ none := by
  decide

/-- Claim C4 (amended): every failure during scope entry of a fresh source
leaves the stream unconstructed and all metadata fields unset (so the source
stays unacquired and re-enterable); a format-probe failure leaves the state
exactly as before entry, but a channel-count validation failure retains the
decoded reader in `audio_reader` and updates the endianness flag. -/
theorem C4_entry_failure_state (f : ProbeInput) (w3 : Bool) (e : EnterError)
    (a : AudioFile) (h : (AudioFile.init f).enter w3 = .error (e, a)) :
    a.stream = none ∧ a.SAMPLE_RATE = none ∧ a.SAMPLE_WIDTH = none
    ∧ a.FRAME_COUNT = none ∧ a.DURATION = none ∧ a.CHUNK = none
    ∧ (e = .UnsupportedFormatError → a = AudioFile.init f)
    ∧ (e = .UnsupportedChannelLayoutError →
        ∃ r le, formatProbe f = some (r, le) ∧ a.audio_reader = some r
          ∧ a.little_endian = le ∧ ¬(1 ≤ r.nchannels ∧ r.nchannels ≤ 2)) := by
  rcases hp : formatProbe f with _ | ⟨r, le⟩
  · have key : (AudioFile.init f).enter w3
        = .error (.UnsupportedFormatError, AudioFile.init f) := by
      simp [AudioFile.enter, AudioFile.init, hp]
    rw [key] at h
    injection h with h1
    injection h1 with he ha
    subst he
    subst ha
    refine ⟨rfl, rfl, rfl, rfl, rfl, rfl, fun _ => rfl, ?_⟩
    intro hc
    cases hc
  · by_cases hch : 1 ≤ r.nchannels ∧ r.nchannels ≤ 2
    · simp [AudioFile.enter, AudioFile.init, hp, hch.1, hch.2] at h
    · have key : (AudioFile.init f).enter w3
          = .error (.UnsupportedChannelLayoutError,
              { AudioFile.init f with audio_reader := some r, little_endian := le }) := by
        simp [AudioFile.enter, AudioFile.init, hp, if_neg hch]
      rw [key] at h
      injection h with h1
      injection h1 with he ha
      subst he
      subst ha
      refine ⟨rfl, rfl, rfl, rfl, rfl, rfl, ?_, ?_⟩
      · intro hc
        cases hc
      · intro _
        exact ⟨r, le, rfl, rfl, rfl, hch⟩

/-- Claim C4, witness: a fresh source with no accepted decoder fails with
`UnsupportedFormatError` and is left exactly in its initial state. -/
theorem C4_entry_failure_state_witness :
    ((AudioFile.init ⟨false, none, none, none⟩).stream = none
      ∧ (AudioFile.init ⟨false, none, none, none⟩).SAMPLE_RATE = none) := by
  have h := C4_entry_failure_state ⟨false, none, none, none⟩ false
    .UnsupportedFormatError (AudioFile.init ⟨false, none, none, none⟩) rfl
  exact ⟨h.1, h.2.1⟩

/-- Claim C5, counterexample: after entering a source (metadata populated
with `SAMPLE_RATE = 8000`) and exiting it, `SAMPLE_RATE` is still `some
8000`, not `None`: `__exit__` clears only `stream` and `DURATION`. -/
theorem C5_counterexample :
    (match (AudioFile.init ⟨true, some ⟨1, 2, 8000, 2, [1, 0, 2, 0], 0⟩,
        none, none⟩).enter false with
      | .ok a => ((a.exit.1).SAMPLE_RATE, (a.exit.1).stream.isNone,
          (a.exit.1).DURATION.isNone, (a.exit.1).FRAME_COUNT, (a.exit.1).SAMPLE_WIDTH)
      | .error _ => (none, false, false, none, none))
      = (some 8000, true, true, some 2, some 2)
    ∧ (some 8000 : Option Nat) ≠ none := by
  decide

/-- Claim C5 (amended): after scope exit, `stream` and `DURATION` are unset
again, but `SAMPLE_RATE`, `SAMPLE_WIDTH`, `FRAME_COUNT` (and `CHUNK` and
`audio_reader`) keep whatever values scope entry gave them. -/
theorem C5_exit_clears (a : AudioFile) :
    a.exit.1.stream = none ∧ a.exit.1.DURATION = none
    ∧ a.exit.1.SAMPLE_RATE = a.SAMPLE_RATE
    ∧ a.exit.1.SAMPLE_WIDTH = a.SAMPLE_WIDTH
    ∧ a.exit.1.FRAME_COUNT = a.FRAME_COUNT
    ∧ a.exit.1.CHUNK = a.CHUNK
    ∧ a.exit.1.audio_reader = a.audio_reader := by
  simp [AudioFile.exit]

/-- Claim C6: for every buffer whose length is a multiple of the (positive)
sample width `w`, applying the per-sample byte-swap twice is the identity. -/
theorem C6_byteswap_involutive (w : Nat) (hw : w ≠ 0) (buf : List Nat)
    (h : w ∣ buf.length) :
    byteswap w (byteswap w buf) = buf := by
  have hlen := length_mem_chunksExact w hw buf h
  rw [byteswap, byteswap]
  rw [chunksExact_flatten w hw _ (by
    intro c hc
    obtain ⟨d, hd, rfl⟩ := List.mem_map.mp hc
    simp [hlen d hd])]
  rw [List.map_map]
  have hid : (List.reverse ∘ List.reverse) = (id : List Nat → List Nat) := by
    funext l
    simp
  rw [hid, List.map_id, flatten_chunksExact w hw]

/-- Claim C6, witness: byte-swapping `[1, 2, 3, 4]` twice at width 2 gives
the buffer back. -/
theorem C6_byteswap_involutive_witness :
    byteswap 2 (byteswap 2 [1, 2, 3, 4]) = [1, 2, 3, 4] :=
  C6_byteswap_involutive 2 (by decide) [1, 2, 3, 4] (by decide)

/-- Claim C7: requesting more frames than remain returns whatever is left —
the cursor lands exactly at the end, strictly fewer frames than requested are
delivered (down to zero), and the bytes handed to the transforms are exactly
the remaining `(nframes - pos) * framesize` ones.  In this embedding `read`
and `readframes` are total functions, so no error is ever raised on this
path. -/
theorem C7_read_past_end (s : AudioFileStream) (size : Int) (h0 : 0 ≤ size)
    (hpos : s.audio_reader.pos ≤ s.audio_reader.nframes)
    (hwf : s.audio_reader.frames.length
        = s.audio_reader.nframes * (s.audio_reader.nchannels * s.audio_reader.sampwidth))
    (hover : s.audio_reader.nframes - s.audio_reader.pos < size.toNat) :
    (s.read size).2.audio_reader.pos = s.audio_reader.nframes
    ∧ (s.read size).2.audio_reader.pos - s.audio_reader.pos < size.toNat
    ∧ (s.audio_reader.readframes size).1.length
        = (s.audio_reader.nframes - s.audio_reader.pos)
            * (s.audio_reader.nchannels * s.audio_reader.sampwidth) := by
  have hne : size ≠ -1 := by omega
  have hnneg : ¬ size < 0 := by omega
  have hmin : min size.toNat (s.audio_reader.nframes - s.audio_reader.pos)
      = s.audio_reader.nframes - s.audio_reader.pos :=
    Nat.min_eq_right (Nat.le_of_lt hover)
  have hread2 : (s.read size).2.audio_reader = (s.audio_reader.readframes size).2 := by
    simp [AudioFileStream.read, hne]
  have hpos2 : (s.audio_reader.readframes size).2.pos = s.audio_reader.nframes := by
    simp only [Reader.readframes, if_neg hnneg, hmin]
    omega
  refine ⟨by rw [hread2, hpos2], by rw [hread2, hpos2]; omega, ?_⟩
  simp only [Reader.readframes, if_neg hnneg, hmin, List.length_take, List.length_drop]
  rw [hwf, ← Nat.sub_mul]
  exact Nat.min_self _

/-- Claim C7, witness: a stream holding 2 frames with 1 already consumed,
asked for 5 frames, advances to the end and the reader hands over exactly
the 2 remaining bytes (1 frame), fewer than requested. -/
theorem C7_read_past_end_witness :
    ((AudioFileStream.mk ⟨1, 2, 8000, 2, [1, 0, 2, 0], 1⟩ true false).read
        5).2.audio_reader.pos = 2
    ∧ ((⟨1, 2, 8000, 2, [1, 0, 2, 0], 1⟩ : Reader).readframes 5).1.length = 1 * (1 * 2) :=
  ⟨(C7_read_past_end (AudioFileStream.mk ⟨1, 2, 8000, 2, [1, 0, 2, 0], 1⟩ true false) 5
      (by decide) (by decide) (by decide) (by decide)).1,
   (C7_read_past_end (AudioFileStream.mk ⟨1, 2, 8000, 2, [1, 0, 2, 0], 1⟩ true false) 5
      (by decide) (by decide) (by decide) (by decide)).2.2⟩

/-- Claim C8: scope exit closes the underlying decoded reader exactly when
the source was constructed from a filesystem path; a source constructed from
an already-open byte-readable object never closes it. -/
theorem C8_exit_close_ownership (a : AudioFile) :
    a.exit.2 = true ↔ a.filename_or_fileobject.is_file_like = false := by
  simp [AudioFile.exit]

/-- Claim C9: entering a source that is already inside an active scope
(its `stream` is not `None`) fails with `StateError`, leaving the state
untouched and without consulting any decoder. -/
theorem C9_reenter_fails (a : AudioFile) (st : AudioFileStream) (w3 : Bool)
    (h : a.stream = some st) :
    a.enter w3 = .error (.StateError, a) := by
  simp [AudioFile.enter, h]

/-- Claim C9, witness: a concrete already-acquired source fails entry with
`StateError` and its state is returned unchanged. -/
theorem C9_reenter_fails_witness :
    AudioFile.enter
        ⟨⟨true, none, none, none⟩, some ⟨⟨1, 2, 8000, 0, [], 0⟩, true, false⟩,
          none, none, false, none, none, none, none⟩ false
      = .error (.StateError,
          ⟨⟨true, none, none, none⟩, some ⟨⟨1, 2, 8000, 0, [], 0⟩, true, false⟩,
            none, none, false, none, none, none, none⟩) :=
  C9_reenter_fails _ ⟨⟨1, 2, 8000, 0, [], 0⟩, true, false⟩ false rfl

/-- Claim C10: reading with the sentinel size `-1` requests the underlying
reader's full frame count instead of treating `-1` as a frame count, hence
returns all frames remaining in one transformed buffer, leaving the cursor
at the end of the stream. -/
theorem C10_read_neg_one (s : AudioFileStream)
    (hpos : s.audio_reader.pos ≤ s.audio_reader.nframes) :
    s.read (-1) = s.read (s.audio_reader.nframes : Int)
    ∧ (s.read (-1)).2.audio_reader.pos = s.audio_reader.nframes := by
  have hge : (0 : Int) ≤ (s.audio_reader.nframes : Int) := Int.natCast_nonneg _
  have hne : (s.audio_reader.nframes : Int) ≠ -1 := by omega
  have hnneg : ¬ (s.audio_reader.nframes : Int) < 0 := by omega
  constructor
  · simp only [AudioFileStream.read, if_true, if_neg hne]
  · simp only [AudioFileStream.read, Reader.readframes, if_true, if_neg hnneg,
      Int.toNat_natCast]
    omega

/-- Claim C10, witness: on a concrete stream with one frame already
consumed, `read (-1)` equals `read nframes` and leaves the cursor at the
end. -/
theorem C10_read_neg_one_witness :
    (AudioFileStream.mk ⟨1, 2, 8000, 2, [1, 0, 2, 0], 1⟩ true false).read (-1)
        = (AudioFileStream.mk ⟨1, 2, 8000, 2, [1, 0, 2, 0], 1⟩ true false).read 2
    ∧ ((AudioFileStream.mk ⟨1, 2, 8000, 2, [1, 0, 2, 0], 1⟩ true false).read
        (-1)).2.audio_reader.pos = 2 :=
  C10_read_neg_one (AudioFileStream.mk ⟨1, 2, 8000, 2, [1, 0, 2, 0], 1⟩ true false)
    (by decide)

end AudioFileSpec
